import Mathlib

/-!
Verification of the clinical-data retrieval and vital-sign analytics pipeline
of the volview-insight repository (component `ChartView`).

The TypeScript source is shallowly embedded:
* JS numbers carried by observations are modelled as exact rationals `ℚ`
  (all concrete values appearing in the checked properties are exactly
  representable IEEE doubles);
* the platform primitive `new Date(s).getTime()` (the WHATWG/ECMA date
  parser) is modelled as an explicit parameter
  `p : String → Option Int` — `none` stands for `NaN` (an invalid date),
  `some t` for the parsed epoch-millisecond value.  Concrete theorems
  instantiate `p` on the few literal strings they use, with the value the
  ECMAScript parser produces for those strings;
* fallible asynchronous requests return `Except Unit`;
* the unbounded `while` loop of the paginated fetch is embedded with an
  explicit fuel argument; `FetchOutcome.outOfFuel` for every fuel value
  represents divergence.
-/

set_option maxRecDepth 10000

namespace VolViewInsight

/-! ## URL model

A parsed WHATWG URL as exposed by the JS `URL` class.  `port = none`
models a URL whose serialization carries no explicit port (the `URL`
constructor normalizes a default port such as `http://h:80` to an empty
port at construction time, so parsed values are already in this form).
`rest` is the remainder of the serialization after the authority:
path, query string (and fragment), kept verbatim. -/
structure JSURL where
  protocol : String
  hostname : String
  port : Option String
deriving DecidableEq

/-- The `rest` component is stored next to the authority. -/
structure JSURLFull where
  base : JSURL
  rest : String
deriving DecidableEq

/-- JS `url.host`: `hostname:port` when an explicit port is present, else
just the hostname. -/
def JSURL.hostStr (u : JSURL) : String :=
  u.hostname ++ (match u.port with | some p => ":" ++ p | none => "")

/-- JS `url.toString()` restricted to the components we track. -/
def JSURLFull.serialize (u : JSURLFull) : String :=
  u.base.protocol ++ "//" ++ u.base.hostStr ++ u.rest

/-- Embeds the URL rewriting in `fetchAllFHIRResourcesForPatient`:

  rawNextUrl.protocol = baseUrl.protocol;
  rawNextUrl.host = baseUrl.host;

The WHATWG `host` setter parses the assigned string as
`hostname [":" port]`; when the assigned string carries no `":" port`
part the URL's existing port is left unchanged (basic URL parser, host
state with state override: the port is only written after a `:` is
seen).  `baseUrl.host` is `hostname:port` when `baseUrl` has an explicit
port and plain `hostname` otherwise, so the net effect is: hostname is
always replaced, the port is replaced only when the base URL carries an
explicit port.  Path and query (`rest`) are untouched. -/
def rewriteNextUrl (base : JSURL) (u : JSURLFull) : JSURLFull :=
  { u with base :=
      { protocol := base.protocol
        hostname := base.hostname
        port := match base.port with | some p => some p | none => u.base.port } }

/-- Follows the claim's words (refinement comparison only): the next link's
scheme and host:port are replaced wholesale by the configured origin's
scheme and host:port, path and query preserved. -/
def claimRewriteNextUrl (base : JSURL) (u : JSURLFull) : JSURLFull :=
  { u with base := { protocol := base.protocol, hostname := base.hostname, port := base.port } }

/-! ## Bundle model and the paginated fetch -/

/-- One element of `bundle.link`. The `url` field is `none` when the link
has no (or an empty, hence falsy) `url`; a present URL is kept in parsed
form. -/
structure BLink where
  relation : String
  url : Option JSURLFull
deriving DecidableEq

/-- One element of `bundle.entry`. -/
structure BundleEntry (α : Type) where
  resource : α
deriving DecidableEq

/-- A FHIR bundle page: `{ entry?: [{resource}], link?: [{relation, url}] }`.
The resource payload type is a parameter (the source is untyped `any`). -/
structure Bundle (α : Type) where
  entry : Option (List (BundleEntry α))
  link : Option (List BLink)
deriving DecidableEq

/-- `bundle.link?.find((link) => link.relation === 'next')?.url`,
with the falsy-url guard `if (nextLink?.url)`. -/
def bundleNextUrl {α : Type} (b : Bundle α) : Option JSURLFull :=
  ((b.link.getD []).find? (fun l => l.relation == "next")).bind BLink.url

/-- The resources appended from one page:
`bundle.entry.map((e) => e.resource)` (skipped when `entry` is absent;
an empty `entry` array is truthy in JS and contributes nothing, same as
`getD []`). -/
def pageResources {α : Type} (b : Bundle α) : List α :=
  (b.entry.getD []).map BundleEntry.resource

/-- Result of the paginated fetch under the fuel embedding.  `outOfFuel`
for every fuel value represents a non-terminating loop. -/
inductive FetchOutcome (α : Type) where
  | ok (resources : List α)
  | fetchError
  | outOfFuel
deriving DecidableEq

/-- The `while (nextUrl)` loop body of `fetchAllFHIRResourcesForPatient`:
request the current URL, append the page's resources to the accumulator,
rewrite the next link against the base URL and continue, or stop and
return the accumulator when there is no next link.  A failed request (or
a malformed-bundle parse, which rejects the same promise) aborts the
whole loop with a fetch error. -/
def fetchLoop {α : Type} (req : String → Except Unit (Bundle α)) (base : JSURL) :
    Nat → String → List α → FetchOutcome α
  | 0, _, _ => .outOfFuel
  | fuel + 1, url, acc =>
    match req url with
    | .error _ => .fetchError
    | .ok b =>
      match bundleNextUrl b with
      | some u => fetchLoop req base fuel ((rewriteNextUrl base u).serialize) (acc ++ pageResources b)
      | none => .ok (acc ++ pageResources b)

/-- `fetchAllFHIRResourcesForPatient(resourceType, patientResourceId)`:
start the pagination loop at the search URL
`{resourceType}?subject=Patient/{patientResourceId}` with an empty
accumulator. -/
def fetchAllFHIRResourcesForPatient {α : Type} (req : String → Except Unit (Bundle α))
    (base : JSURL) (fuel : Nat) (resourceType patientResourceId : String) : FetchOutcome α :=
  fetchLoop req base fuel (resourceType ++ "?subject=Patient/" ++ patientResourceId) []

/-- The server `req` serves, starting from `url`, exactly the chain of
pages `bs`: each page is returned for the URL reached at that point, the
next URL is always the rewritten next link, and the final page has no
(truthy) next link. -/
def servesChain {α : Type} (req : String → Except Unit (Bundle α)) (base : JSURL) :
    String → List (Bundle α) → Prop
  | _, [] => False
  | url, b :: bs =>
    req url = .ok b ∧
    match bundleNextUrl b with
    | none => bs = []
    | some u => servesChain req base ((rewriteNextUrl base u).serialize) bs

/-- The server `req` serves the pages `bs` along the rewritten-link chain
starting at `url`, every page in `bs` having a next link, and the URL
reached after the last page of `bs` is `ufinal`. -/
def servesUntil {α : Type} (req : String → Except Unit (Bundle α)) (base : JSURL) :
    String → List (Bundle α) → String → Prop
  | url, [], ufinal => url = ufinal
  | url, b :: bs, ufinal =>
    req url = .ok b ∧
    ∃ u, bundleNextUrl b = some u ∧
      servesUntil req base ((rewriteNextUrl base u).serialize) bs ufinal

/-- Main pagination lemma: along a served chain the loop returns the
concatenation of all pages' resources appended to the accumulator. -/
theorem fetchLoop_chain {α : Type} (req : String → Except Unit (Bundle α)) (base : JSURL) :
    ∀ (bs : List (Bundle α)) (url : String) (acc : List α) (fuel : Nat),
      servesChain req base url bs → bs.length ≤ fuel →
      fetchLoop req base fuel url acc = .ok (acc ++ (bs.map pageResources).flatten) := by
  intro bs
  induction bs with
  | nil => intro url acc fuel h _; exact absurd h (by simp [servesChain])
  | cons b bs ih =>
    intro url acc fuel h hlen
    obtain ⟨hreq, hrest⟩ := h
    cases fuel with
    | zero => simp at hlen
    | succ f =>
      cases hnext : bundleNextUrl b with
      | none =>
        rw [hnext] at hrest
        simp only [hrest]
        simp [fetchLoop, hreq, hnext]
      | some u =>
        rw [hnext] at hrest
        have hlen2 : bs.length ≤ f := by simpa using hlen
        simp only [fetchLoop, hreq, hnext]
        rw [ih _ _ _ hrest hlen2]
        simp

/-- Error-propagation lemma: when the chain reaches a URL whose request
fails, the loop aborts with a fetch error, whatever was accumulated. -/
theorem fetchLoop_error {α : Type} (req : String → Except Unit (Bundle α)) (base : JSURL) :
    ∀ (bs : List (Bundle α)) (url ufail : String) (acc : List α) (fuel : Nat),
      servesUntil req base url bs ufail → req ufail = .error () → bs.length < fuel →
      fetchLoop req base fuel url acc = .fetchError := by
  intro bs
  induction bs with
  | nil =>
    intro url ufail acc fuel h herr hlen
    cases fuel with
    | zero => simp at hlen
    | succ f =>
      have hu : url = ufail := h
      subst hu
      simp [fetchLoop, herr]
  | cons b bs ih =>
    intro url ufail acc fuel h herr hlen
    obtain ⟨hreq, u, hnext, hrest⟩ := h
    cases fuel with
    | zero => simp at hlen
    | succ f =>
      simp only [fetchLoop, hreq, hnext]
      exact ih _ _ _ _ hrest herr (by simpa using hlen)

/-- C1 (amended): for every multi-page chain of bundle responses that
terminates in a response without a "next" link, `fetchAllFHIRResourcesForPatient`
returns the concatenation of every page's entries' embedded resources in
page order, entries in array order within each page.  Each "next" URL it
follows is the server-supplied link URL with path and query preserved
verbatim, the scheme and hostname replaced by the configured origin's,
and the port replaced by the origin's port when the origin URL carries an
explicit port — when the origin has no explicit port, the link's original
port is preserved (WHATWG `host` setter behavior). -/
theorem fetchAll_concatenates_pages_with_origin_rewrite {α : Type}
    (req : String → Except Unit (Bundle α)) (base : JSURL)
    (resourceType patientResourceId : String) (bs : List (Bundle α)) (fuel : Nat)
    (h : servesChain req base (resourceType ++ "?subject=Patient/" ++ patientResourceId) bs)
    (hfuel : bs.length ≤ fuel) :
    fetchAllFHIRResourcesForPatient req base fuel resourceType patientResourceId
        = .ok ((bs.map pageResources).flatten) ∧
    ∀ u : JSURLFull,
      (rewriteNextUrl base u).rest = u.rest ∧
      (rewriteNextUrl base u).base.protocol = base.protocol ∧
      (rewriteNextUrl base u).base.hostname = base.hostname ∧
      (rewriteNextUrl base u).base.port
        = (match base.port with | some p => some p | none => u.base.port) := by
  refine ⟨?_, fun u => ⟨rfl, rfl, rfl, rfl⟩⟩
  simpa [fetchAllFHIRResourcesForPatient]
    using fetchLoop_chain req base bs _ [] fuel h hfuel

/-- Configured origin without an explicit port, as in `http://localhost`. -/
def baseNoPort : JSURL := { protocol := "http:", hostname := "localhost", port := none }

/-- A server-supplied next link carrying an explicit port. -/
def linkPorted : JSURLFull :=
  { base := { protocol := "http:", hostname := "fhir-internal", port := some "9999" }
    rest := "/Observation?page=2" }

/-- First page: one resource, with the ported next link. -/
def pageOneCx : Bundle Nat :=
  { entry := some [{ resource := 10 }]
    link := some [{ relation := "next", url := some linkPorted }] }

/-- Terminal page: one resource, no next link. -/
def pageTwoCx : Bundle Nat :=
  { entry := some [{ resource := 20 }], link := none }

/-- A server that answers the initial search and the code-rewritten
(port-preserving) next URL, and nothing else. -/
def reqPortCx : String → Except Unit (Bundle Nat) := fun u =>
  if u = "Observation?subject=Patient/p1" then .ok pageOneCx
  else if u = "http://localhost:9999/Observation?page=2" then .ok pageTwoCx
  else .error ()

/-- C1 counterexample: with a configured origin that carries no explicit
port, the URL the loop follows keeps the link's original port instead of
replacing host:port wholesale.  The fetch succeeds against a server that
only answers the port-preserving URL, while the URL the claim prescribes
is never requested (the server errors there). -/
theorem fetchAll_origin_rewrite_port_counterexample :
    (rewriteNextUrl baseNoPort linkPorted).serialize
        = "http://localhost:9999/Observation?page=2" ∧
    (claimRewriteNextUrl baseNoPort linkPorted).serialize
        = "http://localhost/Observation?page=2" ∧
    (rewriteNextUrl baseNoPort linkPorted) ≠ (claimRewriteNextUrl baseNoPort linkPorted) ∧
    fetchAllFHIRResourcesForPatient reqPortCx baseNoPort 2 "Observation" "p1" = .ok [10, 20] ∧
    reqPortCx ((claimRewriteNextUrl baseNoPort linkPorted).serialize) = .error () := by
  refine ⟨by decide, by decide, by decide, by decide, rfl⟩

/-- Configured origin with an explicit port, as in `http://localhost:8080`. -/
def baseW : JSURL := { protocol := "http:", hostname := "localhost", port := some "8080" }

/-- A next link referencing a container-internal hostname. -/
def linkW : JSURLFull :=
  { base := { protocol := "http:", hostname := "fhir-internal", port := some "8080" }
    rest := "/Observation?page=2" }

/-- First witness page: two resources and a next link. -/
def pageOneW : Bundle Nat :=
  { entry := some [{ resource := 1 }, { resource := 2 }]
    link := some [{ relation := "self", url := none }, { relation := "next", url := some linkW }] }

/-- Terminal witness page. -/
def pageTwoW : Bundle Nat :=
  { entry := some [{ resource := 3 }], link := some [] }

/-- Two-page witness server. -/
def reqW : String → Except Unit (Bundle Nat) := fun u =>
  if u = "Observation?subject=Patient/p1" then .ok pageOneW
  else if u = "http://localhost:8080/Observation?page=2" then .ok pageTwoW
  else .error ()

/-- Witness for C1 at a concrete two-page chain. -/
theorem fetchAll_concatenates_pages_witness :
    fetchAllFHIRResourcesForPatient reqW baseW 2 "Observation" "p1" = .ok [1, 2, 3] :=
  (fetchAll_concatenates_pages_with_origin_rewrite reqW baseW "Observation" "p1"
    [pageOneW, pageTwoW] 2 (by exact ⟨rfl, rfl, rfl⟩) (by decide)).1

/-- C8: if any page request (or bundle parse, which rejects the same
promise) during pagination fails, the loop surfaces a fetch error and
returns no resource list: whatever was accumulated before the failure is
discarded, and the top-level fetch yields a fetch error as well. -/
theorem fetchError_discards_partial_pages {α : Type}
    (req : String → Except Unit (Bundle α)) (base : JSURL)
    (resourceType patientResourceId ufail : String) (bs : List (Bundle α)) (fuel : Nat)
    (h : servesUntil req base (resourceType ++ "?subject=Patient/" ++ patientResourceId) bs ufail)
    (herr : req ufail = .error ()) (hfuel : bs.length < fuel) :
    (∀ acc : List α,
      fetchLoop req base fuel (resourceType ++ "?subject=Patient/" ++ patientResourceId) acc
        = .fetchError) ∧
    fetchAllFHIRResourcesForPatient req base fuel resourceType patientResourceId = .fetchError := by
  refine ⟨fun acc => fetchLoop_error req base bs _ _ acc fuel h herr hfuel, ?_⟩
  exact fetchLoop_error req base bs _ _ [] fuel h herr hfuel

/-- One-page-then-failure witness server. -/
def reqE : String → Except Unit (Bundle Nat) := fun u =>
  if u = "Observation?subject=Patient/p1" then .ok pageOneW else .error ()

/-- Witness for C8 at a concrete one-page-then-failure server. -/
theorem fetchError_discards_partial_pages_witness :
    fetchAllFHIRResourcesForPatient reqE baseW 5 "Observation" "p1" = .fetchError :=
  (fetchError_discards_partial_pages reqE baseW "Observation" "p1"
    "http://localhost:8080/Observation?page=2" [pageOneW] 5
    ⟨rfl, linkW, rfl, rfl⟩ rfl (by decide)).2

/-- C9: the pagination loop terminates exactly on finite next-link chains.
Against any server behavior in which every response carries a (truthy)
next link the loop exhausts every fuel bound — there is no page-count
ceiling or cycle detection — and along any finite served chain it
returns a result. -/
theorem fetchLoop_termination_iff_finite_chain {α : Type}
    (req : String → Except Unit (Bundle α)) (base : JSURL) :
    ((∀ u : String, ∃ b, req u = .ok b ∧ (bundleNextUrl b).isSome) →
      ∀ (fuel : Nat) (url : String) (acc : List α),
        fetchLoop req base fuel url acc = .outOfFuel) ∧
    (∀ (url : String) (bs : List (Bundle α)) (fuel : Nat),
      servesChain req base url bs → bs.length ≤ fuel →
      ∃ rs, fetchLoop req base fuel url [] = .ok rs) := by
  constructor
  · intro h fuel
    induction fuel with
    | zero => intro url acc; rfl
    | succ f ih =>
      intro url acc
      obtain ⟨b, hb, hn⟩ := h url
      cases hnext : bundleNextUrl b with
      | none => rw [hnext] at hn; simp at hn
      | some u => simp only [fetchLoop, hb, hnext]; exact ih _ _
  · intro url bs fuel h hlen
    exact ⟨_, fetchLoop_chain req base bs url [] fuel h hlen⟩

/-- A server that always answers with a page carrying a next link. -/
def reqLoopForever : String → Except Unit (Bundle Nat) := fun _ =>
  .ok { entry := some [{ resource := 7 }]
        link := some [{ relation := "next", url := some linkW }] }

/-- Witness for C9: against the always-next server the loop exhausts a
concrete fuel bound. -/
theorem fetchLoop_termination_iff_finite_chain_witness :
    fetchLoop reqLoopForever baseW 5 "Observation?subject=Patient/p1" [] = .outOfFuel :=
  (fetchLoop_termination_iff_finite_chain reqLoopForever baseW).1
    (fun _ => ⟨_, rfl, rfl⟩) 5 "Observation?subject=Patient/p1" []

/-! ## Observation model -/

/-- A dynamically-typed JS value in the `valueQuantity.value` slot: a
number (modelled as an exact rational) or some non-numeric value such as
a string.  JS `null` and a missing field are both collapsed into the
surrounding `Option` (the two filters in the source, `typeof v ===
'number'` and `v != null`, treat `null` and `undefined` alike). -/
inductive JSVal where
  | num (q : ℚ)
  | str (s : String)
deriving DecidableEq

/-- One entry of `code.coding`. -/
structure Coding where
  code : Option String
deriving DecidableEq

/-- The `code` field of an observation. -/
structure CodeField where
  coding : Option (List Coding)
deriving DecidableEq

/-- The `meta` field of a resource. -/
structure MetaInfo where
  lastUpdated : Option String
deriving DecidableEq

/-- The `valueQuantity` field of an observation. -/
structure Quantity where
  value : Option JSVal
deriving DecidableEq

/-- A FHIR observation resource, restricted to the fields the pipeline
reads.  Every field is optional, as in the untyped source. -/
structure Obs where
  meta : Option MetaInfo
  code : Option CodeField
  valueQuantity : Option Quantity
  effectiveDateTime : Option String
  issued : Option String
deriving DecidableEq

/-- JS truthiness of an optional string: `undefined`/`null` and the empty
string are falsy. -/
def truthyStr : Option String → Option String
  | none => none
  | some s => if s = "" then none else some s

/-- The fixed code table `VITAL_SIGN_CODES`. -/
def VITAL_SIGN_CODES : List (String × String) :=
  [("220045", "heart_rate"),
   ("220210", "respiratory_rate"),
   ("223761", "temperature"),
   ("220179", "systolic_bp"),
   ("220180", "diastolic_bp"),
   ("220052", "mean_arterial_pressure"),
   ("220277", "spo2")]

/-- The seven category keys, in the source's record-literal order. -/
def VITAL_KEYS : List String :=
  ["heart_rate", "respiratory_rate", "temperature", "systolic_bp",
   "diastolic_bp", "mean_arterial_pressure", "spo2"]

/-- `VITAL_SIGN_CODES[code]` (record lookup on the fixed table). -/
def lookupVitalKey (c : String) : Option String :=
  (VITAL_SIGN_CODES.find? (fun e => e.1 == c)).map (fun e => e.2)

/-- `obs?.code?.coding?.[0]?.code`. -/
def firstCode (o : Obs) : Option String :=
  ((o.code.bind CodeField.coding).bind List.head?).bind Coding.code

/-- The category key an observation is bucketed under:
`const code = coding?.code; if (!code) continue;` (a missing or empty —
falsy — code is skipped) followed by the table lookup. -/
def classCodeOf (o : Obs) : Option String :=
  match firstCode o with
  | none => none
  | some c => if c = "" then none else lookupVitalKey c

/-- Bucket membership as a Boolean predicate. -/
def belongsTo (k : String) (o : Obs) : Bool :=
  classCodeOf o == some k

/-- `vitalSigns[vitalKey].push(obs)`: append `o` to the list stored under
the first occurrence of key `k` (every key pushed to is present in the
initial record, so the no-op fallthrough on a missing key is never
reached). -/
def pushKey (k : String) (o : Obs) : List (String × List Obs) → List (String × List Obs)
  | [] => []
  | e :: rest => if e.1 = k then (e.1, e.2 ++ [o]) :: rest else e :: pushKey k o rest

/-- The body of the bucketing `for` loop. -/
def bucketStep (acc : List (String × List Obs)) (o : Obs) : List (String × List Obs) :=
  match classCodeOf o with
  | none => acc
  | some k => pushKey k o acc

/-- The initial `vitalSigns` record: all seven keys, each empty. -/
def initVitals : List (String × List Obs) := VITAL_KEYS.map (fun k => (k, []))

/-- `a.meta?.lastUpdated`. -/
def obsLastUpdated (o : Obs) : Option String := o.meta.bind MetaInfo.lastUpdated

/-- The sort key `new Date(a.meta?.lastUpdated || 0).getTime()`: a falsy
(`undefined` or empty) `lastUpdated` yields `new Date(0)`, i.e. epoch
millisecond `0`; otherwise the string is handed to the date parser `p`
(`none` models `NaN`). -/
def obsSortKey (p : String → Option Int) (o : Obs) : Option Int :=
  match truthyStr (obsLastUpdated o) with
  | none => some 0
  | some s => p s

/-- The comparator result `dateB - dateA`; when either side is `NaN` the
subtraction is `NaN`, which ECMAScript's `SortCompare` coerces to `+0`. -/
def cmpOpt : Option Int → Option Int → Int
  | some a, some b => b - a
  | _, _ => 0

/-- The comparator passed to `sort`. -/
def obsCmp (p : String → Option Int) (a b : Obs) : Int :=
  cmpOpt (obsSortKey p a) (obsSortKey p b)

/-- Stable insertion: place `x` before the first `y` with `c x y ≤ 0`.
For a consistent comparator every stable sort produces the same output,
so this insertion sort embeds `Array.prototype.sort` (stable since
ES2019). -/
def insertCmp {α : Type} (c : α → α → Int) (x : α) : List α → List α
  | [] => [x]
  | y :: ys => if c x y ≤ 0 then x :: y :: ys else y :: insertCmp c x ys

/-- Stable insertion sort with a JS-style comparator. -/
def sortCmp {α : Type} (c : α → α → Int) : List α → List α
  | [] => []
  | x :: xs => insertCmp c x (sortCmp c xs)

/-- `extractAndSortVitalSignsObservations`: bucket every observation by
its (first-coding) code through the fixed table, then sort each bucket
with the descending `lastUpdated` comparator. -/
def extractAndSortVitalSignsObservations (p : String → Option Int)
    (observations : List Obs) : List (String × List Obs) :=
  (observations.foldl bucketStep initVitals).map (fun e => (e.1, sortCmp (obsCmp p) e.2))

/-- JS record access `record[k]` on an association list: value at the
first occurrence of `k`. -/
def assocGet {β : Type} (k : String) (l : List (String × β)) : Option β :=
  (l.find? (fun e => e.1 == k)).map (fun e => e.2)

theorem assocGet_cons {β : Type} (k : String) (e : String × β) (rest : List (String × β)) :
    assocGet k (e :: rest) = if e.1 = k then some e.2 else assocGet k rest := by
  by_cases h : e.1 = k <;> simp [assocGet, List.find?_cons, h]

theorem pushKey_get_same (k : String) (o : Obs) :
    ∀ acc : List (String × List Obs),
      assocGet k (pushKey k o acc) = (assocGet k acc).map (fun l => l ++ [o]) := by
  intro acc
  induction acc with
  | nil => simp [pushKey, assocGet]
  | cons e rest ih =>
    by_cases h : e.1 = k
    · simp [pushKey, h, assocGet_cons]
    · simp [pushKey, h, assocGet_cons, ih]

theorem pushKey_get_other {k k2 : String} (hne : k ≠ k2) (o : Obs) :
    ∀ acc : List (String × List Obs), assocGet k (pushKey k2 o acc) = assocGet k acc := by
  intro acc
  induction acc with
  | nil => simp [pushKey]
  | cons e rest ih =>
    by_cases h : e.1 = k2
    · have h2 : e.1 ≠ k := by rw [h]; exact fun hc => hne hc.symm
      have h3 : k2 ≠ k := fun hc => hne hc.symm
      simp [pushKey, h, assocGet_cons, h2, h3]
    · simp [pushKey, h, assocGet_cons, ih]

theorem pushKey_fst (k : String) (o : Obs) :
    ∀ acc : List (String × List Obs), (pushKey k o acc).map Prod.fst = acc.map Prod.fst := by
  intro acc
  induction acc with
  | nil => simp [pushKey]
  | cons e rest ih =>
    by_cases h : e.1 = k <;> simp [pushKey, h, ih]

theorem foldl_bucketStep_fst :
    ∀ (rs : List Obs) (acc : List (String × List Obs)),
      (rs.foldl bucketStep acc).map Prod.fst = acc.map Prod.fst := by
  intro rs
  induction rs with
  | nil => intro acc; rfl
  | cons r rs ih =>
    intro acc
    rw [List.foldl_cons, ih]
    unfold bucketStep
    cases classCodeOf r with
    | none => rfl
    | some k2 => exact pushKey_fst k2 r acc

theorem foldl_bucketStep_get (k : String) :
    ∀ (rs : List Obs) (acc : List (String × List Obs)),
      assocGet k (rs.foldl bucketStep acc)
        = (assocGet k acc).map (fun l => l ++ rs.filter (belongsTo k)) := by
  intro rs
  induction rs with
  | nil => intro acc; cases h : assocGet k acc <;> simp [h]
  | cons r rs ih =>
    intro acc
    rw [List.foldl_cons, ih]
    unfold bucketStep
    cases hc : classCodeOf r with
    | none =>
      have hb : belongsTo k r = false := by simp [belongsTo, hc]
      simp [List.filter_cons, hb]
    | some k2 =>
      by_cases hk : k2 = k
      · subst hk
        rw [pushKey_get_same]
        have hb : belongsTo k2 r = true := by simp [belongsTo, hc]
        cases h : assocGet k2 acc <;> simp [h, List.filter_cons, hb]
      · rw [pushKey_get_other (fun hc2 => hk hc2.symm)]
        have hb : belongsTo k r = false := by simp [belongsTo, hc, hk]
        simp [List.filter_cons, hb]

theorem assocGet_map_snd {β : Type} (f : β → β) (k : String) :
    ∀ l : List (String × β),
      assocGet k (l.map (fun e => (e.1, f e.2))) = (assocGet k l).map f := by
  intro l
  induction l with
  | nil => simp [assocGet]
  | cons e rest ih =>
    by_cases h : e.1 = k <;> simp [assocGet_cons, h, ih]

theorem assocGet_init_eq {k : String} {l0 : List Obs}
    (h : assocGet k initVitals = some l0) : l0 = [] := by
  unfold assocGet at h
  cases hf : List.find? (fun e => e.1 == k) initVitals with
  | none => rw [hf] at h; simp at h
  | some e =>
    rw [hf] at h
    have h2 : e.2 = l0 := by simpa using h
    have he := List.mem_of_find?_eq_some hf
    simp only [initVitals, List.mem_map] at he
    obtain ⟨k2, _, rfl⟩ := he
    exact h2.symm

/-! ## Stable-sort lemmas -/

theorem insertCmp_perm {α : Type} (c : α → α → Int) (x : α) :
    ∀ l : List α, (insertCmp c x l).Perm (x :: l) := by
  intro l
  induction l with
  | nil => exact List.Perm.refl _
  | cons y ys ih =>
    by_cases h : c x y ≤ 0
    · simp [insertCmp, h]
    · simp only [insertCmp, if_neg h]
      exact (ih.cons y).trans (List.Perm.swap x y ys)

theorem sortCmp_perm {α : Type} (c : α → α → Int) :
    ∀ l : List α, (sortCmp c l).Perm l := by
  intro l
  induction l with
  | nil => exact List.Perm.refl _
  | cons x xs ih => exact (insertCmp_perm c x (sortCmp c xs)).trans (ih.cons x)

theorem mem_sortCmp {α : Type} {c : α → α → Int} {l : List α} {a : α} :
    a ∈ sortCmp c l ↔ a ∈ l := (sortCmp_perm c l).mem_iff

theorem insertCmp_congr {α : Type} {c c2 : α → α → Int} (x : α) :
    ∀ l : List α, (∀ b ∈ l, c x b = c2 x b) → insertCmp c x l = insertCmp c2 x l := by
  intro l
  induction l with
  | nil => intro _; rfl
  | cons y ys ih =>
    intro h
    have hy := h y (List.mem_cons_self y ys)
    by_cases hc : c x y ≤ 0
    · simp [insertCmp, hc, hy ▸ hc]
    · rw [insertCmp, insertCmp, if_neg hc, if_neg (hy ▸ hc),
        ih (fun b hb => h b (List.mem_cons_of_mem y hb))]

theorem sortCmp_congr {α : Type} {c c2 : α → α → Int} :
    ∀ l : List α, (∀ a ∈ l, ∀ b ∈ l, c a b = c2 a b) → sortCmp c l = sortCmp c2 l := by
  intro l
  induction l with
  | nil => intro _; rfl
  | cons x xs ih =>
    intro h
    have htail : sortCmp c xs = sortCmp c2 xs :=
      ih (fun a ha b hb => h a (List.mem_cons_of_mem x ha) b (List.mem_cons_of_mem x hb))
    rw [sortCmp, sortCmp, htail]
    refine insertCmp_congr x (sortCmp c2 xs) (fun b hb => ?_)
    exact h x (List.mem_cons_self x xs) b (List.mem_cons_of_mem x (mem_sortCmp.mp hb))

/-- Integer-key descending comparator `(a, b) => key b - key a`. -/
def cInt {α : Type} (key : α → Int) : α → α → Int := fun a b => key b - key a

theorem insertCmp_int_pairwise {α : Type} (key : α → Int) (x : α) :
    ∀ l : List α, l.Pairwise (fun a b => key b ≤ key a) →
      (insertCmp (cInt key) x l).Pairwise (fun a b => key b ≤ key a) := by
  intro l
  induction l with
  | nil => intro _; simp [insertCmp]
  | cons y ys ih =>
    intro h
    rw [List.pairwise_cons] at h
    obtain ⟨hy, hys⟩ := h
    by_cases hc : cInt key x y ≤ 0
    · have hxy : key y ≤ key x := by simpa [cInt] using hc
      rw [insertCmp, if_pos hc, List.pairwise_cons]
      refine ⟨?_, List.pairwise_cons.mpr ⟨hy, hys⟩⟩
      intro b hb
      rcases List.mem_cons.mp hb with rfl | hb2
      · exact hxy
      · exact le_trans (hy b hb2) hxy
    · have hxy : key x ≤ key y := by
        have : 0 < key y - key x := by simpa [cInt] using hc
        omega
      rw [insertCmp, if_neg hc, List.pairwise_cons]
      refine ⟨?_, ih hys⟩
      intro b hb
      rcases List.mem_cons.mp ((insertCmp_perm (cInt key) x ys).mem_iff.mp hb) with rfl | hb2
      · exact hxy
      · exact hy b hb2

theorem sortCmp_int_pairwise {α : Type} (key : α → Int) :
    ∀ l : List α, (sortCmp (cInt key) l).Pairwise (fun a b => key b ≤ key a) := by
  intro l
  induction l with
  | nil => simp [sortCmp]
  | cons x xs ih => exact insertCmp_int_pairwise key x _ ih

theorem insertCmp_int_filter {α : Type} (key : α → Int) (x : α) (t : Int) :
    ∀ l : List α,
      (insertCmp (cInt key) x l).filter (fun a => key a == t)
        = if key x == t then x :: l.filter (fun a => key a == t)
          else l.filter (fun a => key a == t) := by
  intro l
  induction l with
  | nil => by_cases hx : key x = t <;> simp [insertCmp, List.filter_cons, hx]
  | cons y ys ih =>
    by_cases hc : cInt key x y ≤ 0
    · rw [insertCmp, if_pos hc]
      by_cases hx : key x = t <;> simp [List.filter_cons, hx]
    · have hxy : key x < key y := by
        have : 0 < key y - key x := by simpa [cInt] using hc
        omega
      rw [insertCmp, if_neg hc]
      by_cases hx : key x = t
      · have hy : ¬ key y = t := by omega
        simp [List.filter_cons, hx, hy, ih]
      · by_cases hy : key y = t <;> simp [List.filter_cons, hx, hy, ih]

theorem sortCmp_int_filter {α : Type} (key : α → Int) (t : Int) :
    ∀ l : List α,
      (sortCmp (cInt key) l).filter (fun a => key a == t) = l.filter (fun a => key a == t) := by
  intro l
  induction l with
  | nil => rfl
  | cons x xs ih =>
    rw [sortCmp, insertCmp_int_filter]
    by_cases hx : key x = t <;> simp [List.filter_cons, hx, ih]

/-! ## Code-table lemmas -/

theorem lookupVitalKey_eq (c : String) :
    lookupVitalKey c =
      if c = "220045" then some "heart_rate"
      else if c = "220210" then some "respiratory_rate"
      else if c = "223761" then some "temperature"
      else if c = "220179" then some "systolic_bp"
      else if c = "220180" then some "diastolic_bp"
      else if c = "220052" then some "mean_arterial_pressure"
      else if c = "220277" then some "spo2"
      else none := by
  by_cases h1 : c = "220045"
  · subst h1; decide
  by_cases h2 : c = "220210"
  · subst h2; decide
  by_cases h3 : c = "223761"
  · subst h3; decide
  by_cases h4 : c = "220179"
  · subst h4; decide
  by_cases h5 : c = "220180"
  · subst h5; decide
  by_cases h6 : c = "220052"
  · subst h6; decide
  by_cases h7 : c = "220277"
  · subst h7; decide
  rw [if_neg h1, if_neg h2, if_neg h3, if_neg h4, if_neg h5, if_neg h6, if_neg h7]
  rw [lookupVitalKey, Option.map_eq_none', List.find?_eq_none]
  intro e he
  simp only [VITAL_SIGN_CODES, List.mem_cons, List.not_mem_nil, or_false] at he
  rcases he with rfl | rfl | rfl | rfl | rfl | rfl | rfl
  all_goals
    intro hcc
    have hcc2 := eq_of_beq hcc
    first
    | exact h1 hcc2.symm
    | exact h2 hcc2.symm
    | exact h3 hcc2.symm
    | exact h4 hcc2.symm
    | exact h5 hcc2.symm
    | exact h6 hcc2.symm
    | exact h7 hcc2.symm

theorem lookupVitalKey_mem {c k : String} (h : lookupVitalKey c = some k) :
    (c, k) ∈ VITAL_SIGN_CODES := by
  unfold lookupVitalKey at h
  cases hf : VITAL_SIGN_CODES.find? (fun e => e.1 == c) with
  | none => rw [hf] at h; simp at h
  | some e =>
    rw [hf] at h
    have h2 : e.2 = k := by simpa using h
    have he := List.mem_of_find?_eq_some hf
    have hp : e.1 = c := by simpa using List.find?_some hf
    have : e = (c, k) := by
      cases e
      simp_all
    exact this ▸ he

theorem table_belongsTo {c k : String} (hck : (c, k) ∈ VITAL_SIGN_CODES) (r : Obs) :
    belongsTo k r = (firstCode r == some c) := by
  simp only [VITAL_SIGN_CODES, List.mem_cons, List.not_mem_nil, or_false,
    Prod.mk.injEq] at hck
  cases hf : firstCode r with
  | none =>
    rcases hck with ⟨rfl, rfl⟩ | ⟨rfl, rfl⟩ | ⟨rfl, rfl⟩ | ⟨rfl, rfl⟩ | ⟨rfl, rfl⟩ |
      ⟨rfl, rfl⟩ | ⟨rfl, rfl⟩ <;> simp [belongsTo, classCodeOf, hf]
  | some s =>
    have key : ∀ k2 : String,
        belongsTo k2 r = ((if s = "" then none else lookupVitalKey s) == some k2) := by
      intro k2
      simp [belongsTo, classCodeOf, hf]
    by_cases h0 : s = ""
    · rcases hck with ⟨rfl, rfl⟩ | ⟨rfl, rfl⟩ | ⟨rfl, rfl⟩ | ⟨rfl, rfl⟩ | ⟨rfl, rfl⟩ |
        ⟨rfl, rfl⟩ | ⟨rfl, rfl⟩ <;> subst h0 <;> rw [key] <;> decide
    by_cases h1 : s = "220045"
    · rcases hck with ⟨rfl, rfl⟩ | ⟨rfl, rfl⟩ | ⟨rfl, rfl⟩ | ⟨rfl, rfl⟩ | ⟨rfl, rfl⟩ |
        ⟨rfl, rfl⟩ | ⟨rfl, rfl⟩ <;> subst h1 <;> rw [key] <;> decide
    by_cases h2 : s = "220210"
    · rcases hck with ⟨rfl, rfl⟩ | ⟨rfl, rfl⟩ | ⟨rfl, rfl⟩ | ⟨rfl, rfl⟩ | ⟨rfl, rfl⟩ |
        ⟨rfl, rfl⟩ | ⟨rfl, rfl⟩ <;> subst h2 <;> rw [key] <;> decide
    by_cases h3 : s = "223761"
    · rcases hck with ⟨rfl, rfl⟩ | ⟨rfl, rfl⟩ | ⟨rfl, rfl⟩ | ⟨rfl, rfl⟩ | ⟨rfl, rfl⟩ |
        ⟨rfl, rfl⟩ | ⟨rfl, rfl⟩ <;> subst h3 <;> rw [key] <;> decide
    by_cases h4 : s = "220179"
    · rcases hck with ⟨rfl, rfl⟩ | ⟨rfl, rfl⟩ | ⟨rfl, rfl⟩ | ⟨rfl, rfl⟩ | ⟨rfl, rfl⟩ |
        ⟨rfl, rfl⟩ | ⟨rfl, rfl⟩ <;> subst h4 <;> rw [key] <;> decide
    by_cases h5 : s = "220180"
    · rcases hck with ⟨rfl, rfl⟩ | ⟨rfl, rfl⟩ | ⟨rfl, rfl⟩ | ⟨rfl, rfl⟩ | ⟨rfl, rfl⟩ |
        ⟨rfl, rfl⟩ | ⟨rfl, rfl⟩ <;> subst h5 <;> rw [key] <;> decide
    by_cases h6 : s = "220052"
    · rcases hck with ⟨rfl, rfl⟩ | ⟨rfl, rfl⟩ | ⟨rfl, rfl⟩ | ⟨rfl, rfl⟩ | ⟨rfl, rfl⟩ |
        ⟨rfl, rfl⟩ | ⟨rfl, rfl⟩ <;> subst h6 <;> rw [key] <;> decide
    by_cases h7 : s = "220277"
    · rcases hck with ⟨rfl, rfl⟩ | ⟨rfl, rfl⟩ | ⟨rfl, rfl⟩ | ⟨rfl, rfl⟩ | ⟨rfl, rfl⟩ |
        ⟨rfl, rfl⟩ | ⟨rfl, rfl⟩ <;> subst h7 <;> rw [key] <;> decide
    rw [key, if_neg h0, lookupVitalKey_eq,
      if_neg h1, if_neg h2, if_neg h3, if_neg h4, if_neg h5, if_neg h6, if_neg h7]
    rcases hck with ⟨rfl, rfl⟩ | ⟨rfl, rfl⟩ | ⟨rfl, rfl⟩ | ⟨rfl, rfl⟩ | ⟨rfl, rfl⟩ |
      ⟨rfl, rfl⟩ | ⟨rfl, rfl⟩ <;> simp [h1, h2, h3, h4, h5, h6, h7]

/-- The heart of the classifier: the bucket stored under key `k` in the
returned record is the stable-sorted version of the input filtered to
the observations bucketed under `k`. -/
theorem classify_get_eq (p : String → Option Int) (rs : List Obs) {k : String}
    {l0 : List Obs} (hinit : assocGet k initVitals = some l0) :
    assocGet k (extractAndSortVitalSignsObservations p rs)
      = some (sortCmp (obsCmp p) (rs.filter (belongsTo k))) := by
  have h0 : l0 = [] := assocGet_init_eq hinit
  subst h0
  unfold extractAndSortVitalSignsObservations
  rw [assocGet_map_snd, foldl_bucketStep_get, hinit]
  simp

/-- C2: the classifier returns a record with exactly the seven fixed
category keys, in the source's order; the bucket of each category whose
code is bound in the fixed table holds exactly (up to the in-bucket
sort) the input observations whose first coding entry's code equals that
category's code; and every observation stored in some bucket has a first
code bound in the table (so codeless and unmapped observations appear in
no category). -/
theorem classify_keys_and_buckets (p : String → Option Int) (rs : List Obs) :
    (extractAndSortVitalSignsObservations p rs).map Prod.fst = VITAL_KEYS ∧
    (∀ c k : String, (c, k) ∈ VITAL_SIGN_CODES →
      ∃ l, assocGet k (extractAndSortVitalSignsObservations p rs) = some l ∧
        l.Perm (rs.filter (fun r => firstCode r == some c))) ∧
    (∀ (k : String) (l : List Obs) (r : Obs),
      assocGet k (extractAndSortVitalSignsObservations p rs) = some l → r ∈ l →
      ∃ c, firstCode r = some c ∧ (c, k) ∈ VITAL_SIGN_CODES) := by
  refine ⟨?_, ?_, ?_⟩
  · unfold extractAndSortVitalSignsObservations
    rw [List.map_map]
    have hcomp : (Prod.fst ∘ fun e : String × List Obs => (e.1, sortCmp (obsCmp p) e.2))
        = Prod.fst := rfl
    rw [hcomp, foldl_bucketStep_fst]
    decide
  · intro c k hck
    have hkmem : k ∈ VITAL_KEYS := by
      simp only [VITAL_SIGN_CODES, List.mem_cons, List.not_mem_nil, or_false,
        Prod.mk.injEq] at hck
      rcases hck with ⟨_, rfl⟩ | ⟨_, rfl⟩ | ⟨_, rfl⟩ | ⟨_, rfl⟩ | ⟨_, rfl⟩ |
        ⟨_, rfl⟩ | ⟨_, rfl⟩ <;> decide
    have hinit : assocGet k initVitals = some [] := by
      simp only [VITAL_KEYS, List.mem_cons, List.not_mem_nil, or_false] at hkmem
      rcases hkmem with rfl | rfl | rfl | rfl | rfl | rfl | rfl <;> decide
    refine ⟨sortCmp (obsCmp p) (rs.filter (belongsTo k)), classify_get_eq p rs hinit, ?_⟩
    refine (sortCmp_perm _ _).trans ?_
    rw [List.filter_congr (fun r _ => table_belongsTo hck r)]
  · intro k l r hget hr
    have hinit2 : ∃ l0, assocGet k initVitals = some l0 := by
      unfold extractAndSortVitalSignsObservations at hget
      rw [assocGet_map_snd, foldl_bucketStep_get] at hget
      cases h : assocGet k initVitals with
      | none => rw [h] at hget; simp at hget
      | some l0 => exact ⟨l0, rfl⟩
    obtain ⟨l0, hinit⟩ := hinit2
    have hl : l = sortCmp (obsCmp p) (rs.filter (belongsTo k)) := by
      have h2 := classify_get_eq p rs hinit
      rw [hget] at h2
      exact Option.some.inj h2
    subst hl
    have hr2 : r ∈ rs.filter (belongsTo k) := mem_sortCmp.mp hr
    have hb : belongsTo k r = true := List.of_mem_filter hr2
    have hcc : classCodeOf r = some k := by simpa [belongsTo] using hb
    cases hf : firstCode r with
    | none => simp [classCodeOf, hf] at hcc
    | some c =>
      refine ⟨c, rfl, ?_⟩
      simp only [classCodeOf, hf] at hcc
      by_cases h0 : c = ""
      · rw [if_pos h0] at hcc; simp at hcc
      · rw [if_neg h0] at hcc; exact lookupVitalKey_mem hcc

/-- A `code` field carrying the heart-rate code as its first coding. -/
def codeHRField : CodeField := { coding := some [{ code := some "220045" }] }

/-- Witness date parser: two parseable timestamps. -/
def pW : String → Option Int := fun s =>
  if s = "A" then some 5 else if s = "B" then some 3 else none

/-- Heart-rate observation stamped "A" (epoch 5). -/
def rA : Obs :=
  { meta := some { lastUpdated := some "A" }, code := some codeHRField
    valueQuantity := some { value := some (.num 70) }
    effectiveDateTime := none, issued := none }

/-- Heart-rate observation stamped "B" (epoch 3). -/
def rB : Obs :=
  { meta := some { lastUpdated := some "B" }, code := some codeHRField
    valueQuantity := some { value := some (.num 72) }
    effectiveDateTime := none, issued := none }

/-- Witness for C2 at a concrete two-observation input. -/
theorem classify_keys_and_buckets_witness :
    ∃ l, assocGet "heart_rate" (extractAndSortVitalSignsObservations pW [rB, rA]) = some l ∧
      l.Perm ([rB, rA].filter (fun r => firstCode r == some "220045")) :=
  (classify_keys_and_buckets pW [rB, rA]).2.1 "220045" "heart_rate" (by decide)

/-- C3 (amended): within every category of the classifier's output the
resources are non-increasing in the sort key derived from `lastUpdated`
(missing treated as epoch 0), provided every `lastUpdated` present in
the input parses; and resources with equal sort keys keep their original
relative input order (the sort is stable). -/
theorem classify_sorted_desc_and_stable (p : String → Option Int) (rs : List Obs)
    (hk : ∀ r ∈ rs, (obsSortKey p r).isSome = true)
    (k : String) (l : List Obs)
    (hget : assocGet k (extractAndSortVitalSignsObservations p rs) = some l) :
    l.Pairwise (fun a b => (obsSortKey p b).getD 0 ≤ (obsSortKey p a).getD 0) ∧
    ∀ t : Int, l.filter (fun r => obsSortKey p r == some t)
      = (rs.filter (belongsTo k)).filter (fun r => obsSortKey p r == some t) := by
  have hinit2 : ∃ l0, assocGet k initVitals = some l0 := by
    unfold extractAndSortVitalSignsObservations at hget
    rw [assocGet_map_snd, foldl_bucketStep_get] at hget
    cases h : assocGet k initVitals with
    | none => rw [h] at hget; simp at hget
    | some l0 => exact ⟨l0, rfl⟩
  obtain ⟨l0, hinit⟩ := hinit2
  have hl : l = sortCmp (obsCmp p) (rs.filter (belongsTo k)) := by
    have h2 := classify_get_eq p rs hinit
    rw [hget] at h2
    exact Option.some.inj h2
  subst hl
  have hsub : ∀ r ∈ rs.filter (belongsTo k), (obsSortKey p r).isSome = true :=
    fun r hr => hk r (List.mem_of_mem_filter hr)
  have hcong : ∀ a ∈ rs.filter (belongsTo k), ∀ b ∈ rs.filter (belongsTo k),
      obsCmp p a b = cInt (fun r => (obsSortKey p r).getD 0) a b := by
    intro a ha b hb
    obtain ⟨ta, hta⟩ := Option.isSome_iff_exists.mp (hsub a ha)
    obtain ⟨tb, htb⟩ := Option.isSome_iff_exists.mp (hsub b hb)
    simp [obsCmp, cInt, hta, htb, cmpOpt]
  rw [sortCmp_congr (rs.filter (belongsTo k)) hcong]
  constructor
  · exact sortCmp_int_pairwise _ _
  · intro t
    have hpred : ∀ r ∈ rs.filter (belongsTo k),
        (obsSortKey p r == some t) = ((obsSortKey p r).getD 0 == t) := by
      intro r hr
      obtain ⟨tr, htr⟩ := Option.isSome_iff_exists.mp (hsub r hr)
      simp [htr]
    rw [List.filter_congr (fun r hr => hpred r (mem_sortCmp.mp hr)),
      List.filter_congr hpred, sortCmp_int_filter]

/-- Witness for C3 at a concrete two-observation input (keys 5 and 3,
input arriving in ascending order). -/
theorem classify_sorted_desc_and_stable_witness :
    [rA, rB].Pairwise (fun a b => (obsSortKey pW b).getD 0 ≤ (obsSortKey pW a).getD 0) :=
  (classify_sorted_desc_and_stable pW [rB, rA] (by decide) "heart_rate" [rA, rB]
    (by decide)).1

/-- Follows the claim's words (refinement comparison only): a missing
`lastUpdated` is treated as the earliest possible instant (`⊥`). -/
def claimSortKey (p : String → Option Int) (o : Obs) : WithBot Int :=
  match truthyStr (obsLastUpdated o) with
  | none => ⊥
  | some s => match p s with | some t => (t : WithBot Int) | none => ⊥

/-- Date parser for the counterexample: a pre-1970 ISO timestamp, which
the ECMAScript date parser maps to a negative epoch-millisecond value
(1950-01-01T00:00:00Z is −631152000000 ms). -/
def pOld : String → Option Int := fun s =>
  if s = "1950-01-01T00:00:00Z" then some (-631152000000) else none

/-- Heart-rate observation with no `meta` at all (missing `lastUpdated`). -/
def rMissing : Obs :=
  { meta := none, code := some codeHRField, valueQuantity := none
    effectiveDateTime := none, issued := none }

/-- Heart-rate observation last updated before the Unix epoch. -/
def rOld : Obs :=
  { meta := some { lastUpdated := some "1950-01-01T00:00:00Z" }
    code := some codeHRField, valueQuantity := none
    effectiveDateTime := none, issued := none }

/-- C3 counterexample: the code keys a missing `lastUpdated` as epoch 0,
not as the earliest possible instant, so an observation missing
`lastUpdated` is sorted above one updated before 1970 — the output
violates the claimed ordering in which missing is earliest. -/
theorem classify_missing_lastUpdated_counterexample :
    assocGet "heart_rate" (extractAndSortVitalSignsObservations pOld [rMissing, rOld])
      = some [rMissing, rOld] ∧
    ¬ ([rMissing, rOld].Pairwise
        (fun a b => claimSortKey pOld b ≤ claimSortKey pOld a)) := by
  constructor
  · decide
  · intro hp
    rw [List.pairwise_cons] at hp
    have h2 := hp.1 rOld (List.mem_singleton.mpr rfl)
    simp [claimSortKey, pOld, obsLastUpdated, truthyStr, rMissing, rOld] at h2

/-! ## Statistics engine -/

/-- `obs?.valueQuantity?.value`. -/
def obsValue (o : Obs) : Option JSVal := o.valueQuantity.bind Quantity.value

/-- The numeric sample extraction
`obsList.map((obs) => obs?.valueQuantity?.value).filter((v) => typeof v === 'number')`:
only actual numbers survive (missing, `null` and non-numeric values are
discarded). -/
def vitalValues (l : List Obs) : List ℚ :=
  (l.map obsValue).filterMap (fun v => match v with | some (.num q) => some q | _ => none)

/-- `values.reduce((sum, val) => sum + val, 0) / values.length`. -/
def vitalMean (l : List Obs) : ℚ :=
  (vitalValues l).foldl (fun sum val => sum + val) 0 / ((vitalValues l).length : ℚ)

/-- `values.reduce((sum, val) => sum + Math.pow(val - mean, 2), 0) / (values.length - 1)`. -/
def vitalVariance (l : List Obs) : ℚ :=
  ((vitalValues l).map (fun val => (val - vitalMean l) ^ 2)).foldl (fun sum val => sum + val) 0
    / (((vitalValues l).length : ℚ) - 1)

/-- The per-category body of `computeVitalStats`: `{mean: null, stddev:
null}` when fewer than two numeric values remain, else the arithmetic
mean and (here) the sample variance; the source stores
`Math.sqrt(variance)`, see `vitalStddevOf`. -/
def vitalStatsOf (l : List Obs) : Option ℚ × Option ℚ :=
  if (vitalValues l).length < 2 then (none, none)
  else (some (vitalMean l), some (vitalVariance l))

/-- `computeVitalStats` over the whole record of buckets. -/
def computeVitalStats (vitalsData : List (String × List Obs)) :
    List (String × (Option ℚ × Option ℚ)) :=
  vitalsData.map (fun e => (e.1, vitalStatsOf e.2))

/-- `stddev = Math.sqrt(variance)`, real-valued. -/
noncomputable def vitalStddevOf (l : List Obs) : Option ℝ :=
  (vitalStatsOf l).2.map (fun v : ℚ => Real.sqrt (v : ℝ))

theorem foldl_add_eq_sum (l : List ℚ) : ∀ a : ℚ, l.foldl (fun sum val => sum + val) a = a + l.sum := by
  induction l with
  | nil => intro a; simp
  | cons x xs ih => intro a; rw [List.foldl_cons, ih, List.sum_cons]; ring

theorem foldl_add_zero (l : List ℚ) : l.foldl (fun sum val => sum + val) 0 = l.sum := by
  rw [foldl_add_eq_sum]; ring

/-! ## Time-series builder -/

/-- JS `a || b` on optional strings: `a` when truthy, else `b` verbatim. -/
def jsOrStr (a b : Option String) : Option String :=
  match truthyStr a with
  | some s => some s
  | none => b

/-- `resource?.meta?.lastUpdated || resource?.effectiveDateTime || resource?.issued`:
the first truthy (present and non-empty) candidate, else the last
operand verbatim. -/
def resolveDateStr (o : Obs) : Option String :=
  jsOrStr (jsOrStr (obsLastUpdated o) o.effectiveDateTime) o.issued

/-- One mapped point: `new Date(dateStr)` parses the resolved string
(`new Date(undefined)` and `new Date("")` are both invalid, hence the
`truthyStr` before the parser), and the point survives exactly when
`y != null && !isNaN(x.getTime())`. -/
def toPoint (p : String → Option Int) (o : Obs) : Option (Int × JSVal) :=
  match obsValue o, (truthyStr (resolveDateStr o)).bind p with
  | some yv, some xv => some (xv, yv)
  | _, _ => none

/-- `vitalData.map(...).filter(Boolean)`: the surviving points, in map
order. -/
def seriesPoints (p : String → Option Int) (vitalData : List Obs) : List (Int × JSVal) :=
  (vitalData.map (toPoint p)).filterMap id

/-- The single dataset built by `computeTimeSeriesChartData`. -/
structure Dataset where
  label : String
  data : List (Int × JSVal)
  borderColor : String
  backgroundColor : String
  fill : Bool
  tension : ℚ
  borderWidth : ℚ
  pointRadius : ℚ
  pointHoverRadius : ℚ
deriving DecidableEq

/-- The `{ datasets: [...] }` chart payload. -/
structure ChartDataModel where
  datasets : List Dataset
deriving DecidableEq

/-- `computeTimeSeriesChartData(vitalData, color, label)`. -/
def computeTimeSeriesChartData (p : String → Option Int) (vitalData : List Obs)
    (color label : String) : ChartDataModel :=
  { datasets :=
      [{ label := label
         data := seriesPoints p vitalData
         borderColor := color
         backgroundColor := color
         fill := false
         tension := 0
         borderWidth := 2
         pointRadius := 2
         pointHoverRadius := 6 }] }

/-- Observation carrying a plain numeric quantity. -/
def obsNum (q : ℚ) : Obs :=
  { meta := none, code := none, valueQuantity := some { value := some (.num q) }
    effectiveDateTime := none, issued := none }

/-- The sample list whose numeric values are 70, 72, 74. -/
def obs707274 : List Obs := [obsNum 70, obsNum 72, obsNum 74]

/-- C4: with fewer than two numeric values (after discarding missing and
non-numeric ones) the statistics are `{null, null}`; on numeric values
[70, 72, 74] the mean is 72, the (Bessel-corrected, divisor n − 1 = 2)
variance is 4 and the standard deviation is 2. -/
theorem computeVitalStats_insufficient_and_exact_example :
    (∀ l : List Obs, (vitalValues l).length < 2 →
      vitalStatsOf l = (none, none) ∧ vitalStddevOf l = none) ∧
    vitalStatsOf obs707274 = (some 72, some 4) ∧
    vitalStddevOf obs707274 = some 2 := by
  have hvv : vitalValues obs707274 = [70, 72, 74] := rfl
  have hmean : vitalMean obs707274 = 72 := by
    unfold vitalMean
    rw [hvv]
    norm_num [List.foldl_cons, List.foldl_nil]
  have hvar : vitalVariance obs707274 = 4 := by
    unfold vitalVariance
    rw [hvv, hmean]
    norm_num [List.foldl_cons, List.foldl_nil, List.map_cons, List.map_nil]
  have hlen : ¬ (vitalValues obs707274).length < 2 := by rw [hvv]; norm_num
  have hstats : vitalStatsOf obs707274 = (some 72, some 4) := by
    unfold vitalStatsOf
    rw [if_neg hlen, hmean, hvar]
  refine ⟨?_, hstats, ?_⟩
  · intro l h
    refine ⟨by simp only [vitalStatsOf, if_pos h], ?_⟩
    unfold vitalStddevOf
    simp only [vitalStatsOf, if_pos h]
    rfl
  · unfold vitalStddevOf
    rw [hstats]
    show Option.map _ (some (4 : ℚ)) = some 2
    simp only [Option.map_some', Option.some.injEq]
    have hc : ((4 : ℚ) : ℝ) = (4 : ℝ) := by norm_num
    rw [hc, show (4 : ℝ) = 2 ^ 2 by norm_num, Real.sqrt_sq (by norm_num : (0 : ℝ) ≤ 2)]

/-- Witness for C4's insufficient-samples clause at a singleton list. -/
theorem computeVitalStats_insufficient_witness :
    vitalStatsOf [obsNum 70] = (none, none) :=
  (computeVitalStats_insufficient_and_exact_example.1 [obsNum 70] (by decide)).1

/-- C5: the statistics are invariant under permutation of the input
list — they depend only on the multiset of numeric values present. -/
theorem computeVitalStats_permutation_invariant (l1 l2 : List Obs) (h : l1.Perm l2) :
    vitalStatsOf l1 = vitalStatsOf l2 ∧ vitalStddevOf l1 = vitalStddevOf l2 := by
  have hv : (vitalValues l1).Perm (vitalValues l2) := by
    unfold vitalValues
    exact (h.map obsValue).filterMap _
  have hlen : (vitalValues l1).length = (vitalValues l2).length := hv.length_eq
  have hsum : (vitalValues l1).foldl (fun sum val => sum + val) 0
      = (vitalValues l2).foldl (fun sum val => sum + val) 0 := by
    rw [foldl_add_zero, foldl_add_zero]
    exact hv.sum_eq
  have hmean : vitalMean l1 = vitalMean l2 := by
    unfold vitalMean
    rw [hsum, hlen]
  have hvar : vitalVariance l1 = vitalVariance l2 := by
    unfold vitalVariance
    rw [hmean, hlen, foldl_add_zero, foldl_add_zero,
      (hv.map (fun val => (val - vitalMean l2) ^ 2)).sum_eq]
  have hstats : vitalStatsOf l1 = vitalStatsOf l2 := by
    unfold vitalStatsOf
    by_cases hc : (vitalValues l1).length < 2
    · rw [if_pos hc, if_pos (hlen ▸ hc)]
    · rw [if_neg hc, if_neg (hlen ▸ hc), hmean, hvar]
  exact ⟨hstats, by rw [vitalStddevOf, vitalStddevOf, hstats]⟩

/-- Witness for C5 at a concrete two-element permutation. -/
theorem computeVitalStats_permutation_invariant_witness :
    vitalStatsOf [obsNum 70, obsNum 72] = vitalStatsOf [obsNum 72, obsNum 70] :=
  (computeVitalStats_permutation_invariant [obsNum 70, obsNum 72] [obsNum 72, obsNum 70]
    (List.Perm.swap (obsNum 72) (obsNum 70) [])).1

/-- C6 (amended): the timestamp is resolved from the first truthy
(present and non-empty) candidate in the order `lastUpdated` →
`effectiveDateTime` → `issued`; the point is dropped exactly when the
value is absent (null/undefined) or when that resolved candidate — not
any later one — fails to parse (including when no candidate is
present). -/
theorem computeTimeSeriesChartData_point_resolution (p : String → Option Int) (o : Obs) :
    (toPoint p o = none ↔
      (obsValue o = none ∨ (truthyStr (resolveDateStr o)).bind p = none)) ∧
    (∀ (t : Int) (v : JSVal), toPoint p o = some (t, v) ↔
      ((truthyStr (resolveDateStr o)).bind p = some t ∧ obsValue o = some v)) := by
  constructor
  · cases hy : obsValue o <;>
      cases hx : (truthyStr (resolveDateStr o)).bind p <;>
        simp [toPoint, hy, hx]
  · intro t v
    cases hy : obsValue o <;>
      cases hx : (truthyStr (resolveDateStr o)).bind p <;>
        simp [toPoint, hy, hx, and_comm, eq_comm]

/-- Date parser for the C6 counterexample: it parses the ISO timestamp
2020-01-01T00:00:00Z (epoch 1577836800000 ms) and nothing else; in
particular `new Date("not-a-date")` is invalid. -/
def pC6 : String → Option Int := fun s =>
  if s = "2020-01-01T00:00:00Z" then some 1577836800000 else none

/-- Observation whose `lastUpdated` is present but unparseable while its
`effectiveDateTime` is parseable and its value is numeric. -/
def rBadFirst : Obs :=
  { meta := some { lastUpdated := some "not-a-date" }
    code := some codeHRField
    valueQuantity := some { value := some (.num 5) }
    effectiveDateTime := some "2020-01-01T00:00:00Z", issued := none }

/-- C6 counterexample: a resource with a numeric value and a parseable
candidate (`effectiveDateTime`) among its timestamp candidates is
nevertheless dropped, because the first present candidate
(`lastUpdated`) wins the `||` chain and fails to parse — there is no
fall-through to the next parseable candidate. -/
theorem computeTimeSeriesChartData_fallback_counterexample :
    pC6 "not-a-date" = none ∧
    pC6 "2020-01-01T00:00:00Z" = some 1577836800000 ∧
    obsValue rBadFirst = some (.num 5) ∧
    rBadFirst.effectiveDateTime = some "2020-01-01T00:00:00Z" ∧
    toPoint pC6 rBadFirst = none ∧
    (computeTimeSeriesChartData pC6 [rBadFirst] "#E57373" "Heart Rate").datasets.map
      Dataset.data = [[]] := by
  exact ⟨rfl, rfl, rfl, rfl, rfl, rfl⟩

/-- Witness for C6 at the concrete unparseable-first-candidate resource:
the drop condition of the amended claim fires. -/
theorem computeTimeSeriesChartData_point_resolution_witness :
    toPoint pC6 rBadFirst = none :=
  (computeTimeSeriesChartData_point_resolution pC6 rBadFirst).1.mpr (Or.inr rfl)

/-- C7: the points emitted by the series builder appear in the same
relative order as the resources they derive from: the builder is a
homomorphism for list append, a singleton input yields that resource's
point (if any), and the chart dataset carries exactly these points. -/
theorem computeTimeSeriesChartData_preserves_order (p : String → Option Int)
    (l1 l2 vitalData : List Obs) (color label : String) (o : Obs) :
    seriesPoints p (l1 ++ l2) = seriesPoints p l1 ++ seriesPoints p l2 ∧
    seriesPoints p [o] = (toPoint p o).toList ∧
    (computeTimeSeriesChartData p vitalData color label).datasets.map Dataset.data
      = [seriesPoints p vitalData] := by
  refine ⟨?_, ?_, rfl⟩
  · simp [seriesPoints]
  · cases h : toPoint p o <;> simp [seriesPoints, h]

/-- Witness for C7 at a concrete split input. -/
theorem computeTimeSeriesChartData_preserves_order_witness :
    seriesPoints pW ([rA] ++ [rB]) = seriesPoints pW [rA] ++ seriesPoints pW [rB] :=
  (computeTimeSeriesChartData_preserves_order pW [rA] [rB] [] "#E57373" "Heart Rate" rA).1

/-- C10: a present but non-numeric quantity value is excluded from the
statistics' numeric sample set (it contributes to neither the count nor
the mean), while the series builder keeps it as a point whenever a
timestamp resolves — the two operations filter the same field
differently (`typeof v === 'number'` versus `v != null`). -/
theorem value_filter_asymmetry (p : String → Option Int) (o : Obs) (s : String)
    (hv : obsValue o = some (.str s)) :
    (∀ l1 l2 : List Obs, vitalValues (l1 ++ o :: l2) = vitalValues (l1 ++ l2)) ∧
    (∀ l1 l2 : List Obs, vitalStatsOf (l1 ++ o :: l2) = vitalStatsOf (l1 ++ l2)) ∧
    (∀ t : Int, (truthyStr (resolveDateStr o)).bind p = some t →
      toPoint p o = some (t, .str s)) := by
  have hval : ∀ l1 l2 : List Obs, vitalValues (l1 ++ o :: l2) = vitalValues (l1 ++ l2) := by
    intro l1 l2
    unfold vitalValues
    simp [hv]
  refine ⟨hval, ?_, ?_⟩
  · intro l1 l2
    have hmean2 : vitalMean (l1 ++ o :: l2) = vitalMean (l1 ++ l2) := by
      unfold vitalMean
      rw [hval]
    unfold vitalStatsOf vitalVariance
    rw [hval, hmean2]
  · intro t ht
    simp [toPoint, hv, ht]

/-- Observation with a string-valued quantity and a parseable
`lastUpdated`. -/
def rStr : Obs :=
  { meta := some { lastUpdated := some "A" }, code := some codeHRField
    valueQuantity := some { value := some (.str "n/a") }
    effectiveDateTime := none, issued := none }

/-- Witness for C10 at a concrete string-valued observation. -/
theorem value_filter_asymmetry_witness :
    vitalStatsOf ([] ++ rStr :: []) = vitalStatsOf ([] ++ []) ∧
    toPoint pW rStr = some (5, .str "n/a") :=
  ⟨(value_filter_asymmetry pW rStr "n/a" rfl).2.1 [] [],
   (value_filter_asymmetry pW rStr "n/a" rfl).2.2 5 rfl⟩

end VolViewInsight
